/-
Verification of the SVG path reconstruction engine of the weyl-compositor
repository (`src/nodes/weyl_vectorize.py`, functions `parse_svg_to_paths`
and `parse_path_data`).

The Python code is shallowly embedded below.  Numeric values (Python
floats) are modelled as exact rationals `ℚ`; all concrete inputs used in
the theorems only involve values that are exactly representable as
double-precision floats, where float and rational arithmetic agree.
Python exceptions (the `IndexError` reachable from `args[i + 1]` in the
`M`/`L` loops) are modelled by returning `Option`: `none` models an
escaped exception, `some` a normal return.
-/
import Mathlib

/-! ## Data model

A control point mirrors the dict
`{"id": ..., "x": ..., "y": ..., "handleIn": ..., "handleOut": ..., "type": ...}`
built by `parse_path_data`.  Handles (`None` or `{"x": ..., "y": ...}`) are
`Option Handle`, the `"type"` field (`"corner"` or `"smooth"`) is `PtType`. -/

structure Handle where
  x : ℚ
  y : ℚ
deriving DecidableEq, Repr

inductive PtType where
  | corner
  | smooth
deriving DecidableEq, Repr

structure ControlPoint where
  id : String
  x : ℚ
  y : ℚ
  handleIn : Option Handle
  handleOut : Option Handle
  type : PtType
deriving DecidableEq, Repr

/-- One entry of the list returned by `parse_svg_to_paths`. -/
structure PathRecord where
  id : String
  fill : String
  stroke : String
  controlPoints : List ControlPoint
  closed : Bool
deriving DecidableEq, Repr

/-! ## Tokenizer

Embeds
`re.findall(r'([MmLlHhVvCcSsQqTtAaZz])|([+-]?(?:\d+\.?\d*|\.\d+)(?:[eE][+-]?\d+)?)', d)`:
a left-to-right scan that, at each position, matches either a command
letter or a numeric literal, and otherwise skips one character.  The
numeric value is converted immediately (`float(num)` in the Python code,
which cannot fail on a string matched by the numeric alternative). -/

def isCmdChar (c : Char) : Bool :=
  "MmLlHhVvCcSsQqTtAaZz".data.contains c

/-- Longest digit prefix (`\d*`) and the rest of the input. -/
def takeDigits : List Char → List Char × List Char
  | [] => ([], [])
  | c :: cs =>
    if c.isDigit then (c :: (takeDigits cs).1, (takeDigits cs).2)
    else ([], c :: cs)

def digitsVal (ds : List Char) : ℕ :=
  ds.foldl (fun n c => 10 * n + (c.toNat - 48)) 0

/-- The mantissa alternative `(\d+\.?\d*|\.\d+)` together with its value. -/
def scanMantissa (l : List Char) : Option (ℚ × List Char) :=
  if (takeDigits l).1.isEmpty then
    match (takeDigits l).2 with
    | '.' :: r2 =>
      if (takeDigits r2).1.isEmpty then none
      else
        some ((digitsVal (takeDigits r2).1 : ℚ) / 10 ^ (takeDigits r2).1.length,
          (takeDigits r2).2)
    | _ => none
  else
    match (takeDigits l).2 with
    | '.' :: r2 =>
      some ((digitsVal (takeDigits l).1 : ℚ) +
          (digitsVal (takeDigits r2).1 : ℚ) / 10 ^ (takeDigits r2).1.length,
        (takeDigits r2).2)
    | _ => some ((digitsVal (takeDigits l).1 : ℚ), (takeDigits l).2)

/-- Helper for the exponent part: consume `\d+` after `[eE][+-]?`; if no
digit follows, the greedy exponent group backtracks and consumes nothing
(`orig` is returned unchanged). -/
def scanExpDigits (neg : Bool) (orig l : List Char) : ℚ × List Char :=
  if (takeDigits l).1.isEmpty then (1, orig)
  else
    ((10 : ℚ) ^ (if neg then -(digitsVal (takeDigits l).1 : ℤ)
        else (digitsVal (takeDigits l).1 : ℤ)),
      (takeDigits l).2)

/-- The optional exponent `(?:[eE][+-]?\d+)?`, as a multiplier. -/
def scanExp (l : List Char) : ℚ × List Char :=
  match l with
  | c :: rest =>
    if c = 'e' ∨ c = 'E' then
      match rest with
      | s :: rest2 =>
        if s = '-' then scanExpDigits true l rest2
        else if s = '+' then scanExpDigits false l rest2
        else scanExpDigits false l rest
      | [] => (1, l)
    else (1, l)
  | [] => (1, l)

def scanNumBody (l : List Char) : Option (ℚ × List Char) :=
  match scanMantissa l with
  | none => none
  | some (m, r) => some (m * (scanExp r).1, (scanExp r).2)

/-- The whole numeric alternative `[+-]?(?:\d+\.?\d*|\.\d+)(?:[eE][+-]?\d+)?`. -/
def scanNum (l : List Char) : Option (ℚ × List Char) :=
  match l with
  | '+' :: rest => scanNumBody rest
  | '-' :: rest => (scanNumBody rest).map (fun p => (-p.1, p.2))
  | _ => scanNumBody l

theorem takeDigits_length : ∀ l : List Char,
    (takeDigits l).1.length + (takeDigits l).2.length = l.length
  | [] => rfl
  | c :: cs => by
    rw [takeDigits]
    split
    · have := takeDigits_length cs
      simp only [List.length_cons]
      omega
    · simp

theorem takeDigits_rest_le (l : List Char) : (takeDigits l).2.length ≤ l.length := by
  have := takeDigits_length l
  omega

theorem takeDigits_rest_lt (l : List Char) (h : ¬ (takeDigits l).1.isEmpty) :
    (takeDigits l).2.length < l.length := by
  have := takeDigits_length l
  rw [List.isEmpty_iff] at h
  have : (takeDigits l).1.length ≠ 0 := fun h0 => h (List.length_eq_zero.mp h0)
  omega

theorem scanMantissa_length {l r : List Char} {q : ℚ}
    (h : scanMantissa l = some (q, r)) : r.length < l.length := by
  rw [scanMantissa] at h
  split at h
  · split at h
    next r2 heq =>
      split at h
      · exact absurd h (by simp)
      · have h2 := takeDigits_rest_le r2
        have h1 : (takeDigits l).2.length = l.length := by
          have hs := takeDigits_length l
          have : (takeDigits l).1.length = 0 := by
            simpa [List.isEmpty_iff, List.length_eq_zero] using
              ‹(takeDigits l).1.isEmpty = true›
          omega
        have hr : (takeDigits r2).2 = r := congrArg Prod.snd (Option.some.inj h)
        have hlen : ((takeDigits l).2).length = r2.length + 1 := by rw [heq]; simp
        subst hr
        omega
    next => exact absurd h (by simp)
  · have hlt : (takeDigits l).2.length < l.length :=
      takeDigits_rest_lt l (by simpa using ‹¬ (takeDigits l).1.isEmpty = true›)
    split at h
    next r2 heq =>
      have h2 := takeDigits_rest_le r2
      have hr : (takeDigits r2).2 = r := congrArg Prod.snd (Option.some.inj h)
      have hlen : ((takeDigits l).2).length = r2.length + 1 := by rw [heq]; simp
      subst hr
      omega
    next =>
      have hr : (takeDigits l).2 = r := congrArg Prod.snd (Option.some.inj h)
      subst hr
      exact hlt

theorem scanExpDigits_length (neg : Bool) (orig l : List Char)
    (hl : l.length ≤ orig.length) :
    (scanExpDigits neg orig l).2.length ≤ orig.length := by
  rw [scanExpDigits]
  split
  · simp
  · have := takeDigits_rest_le l
    simp only
    omega

theorem scanExp_length (l : List Char) : (scanExp l).2.length ≤ l.length := by
  rw [scanExp.eq_def]
  split
  next c rest =>
    split
    · split
      next s rest2 =>
        have h2 : rest2.length ≤ (c :: s :: rest2).length := by
          simp only [List.length_cons]; omega
        have h1 : (s :: rest2).length ≤ (c :: s :: rest2).length := by simp
        split
        · exact scanExpDigits_length _ _ _ h2
        · split
          · exact scanExpDigits_length _ _ _ h2
          · exact scanExpDigits_length _ _ _ h1
      next => simp
    · simp
  next => simp

theorem scanNumBody_length {l r : List Char} {q : ℚ}
    (h : scanNumBody l = some (q, r)) : r.length < l.length := by
  rw [scanNumBody] at h
  split at h
  · exact absurd h (by simp)
  next m r0 heq =>
    have h1 := scanMantissa_length heq
    have h2 := scanExp_length r0
    have hr : (scanExp r0).2 = r := congrArg Prod.snd (Option.some.inj h)
    subst hr
    omega

theorem scanNum_length {l r : List Char} {q : ℚ}
    (h : scanNum l = some (q, r)) : r.length < l.length := by
  rw [scanNum.eq_def] at h
  split at h
  next rest =>
    have := scanNumBody_length h
    simp only [List.length_cons]
    omega
  next rest =>
    rw [Option.map_eq_some'] at h
    obtain ⟨⟨q0, r0⟩, hb, hr⟩ := h
    have h0 := scanNumBody_length hb
    have hr2 : r0 = r := congrArg Prod.snd hr
    subst hr2
    simp only [List.length_cons]
    omega
  next =>
    exact scanNumBody_length h

inductive Token where
  | cmd (c : Char)
  | num (q : ℚ)
deriving DecidableEq, Repr

/-- The scan loop, structurally recursive on a step budget.  Each
iteration consumes at least one character (`scanNum_length`), so a budget
of `l.length` steps never runs out; `tokenizeAux_fuel` below certifies
that any sufficient budget yields the same result. -/
def tokenizeAux : ℕ → List Char → List Token
  | 0, _ => []
  | _ + 1, [] => []
  | fuel + 1, c :: cs =>
    if isCmdChar c then Token.cmd c :: tokenizeAux fuel cs
    else
      match scanNum (c :: cs) with
      | some (q, rest) => Token.num q :: tokenizeAux fuel rest
      | none => tokenizeAux fuel cs

def tokenize (l : List Char) : List Token :=
  tokenizeAux l.length l

theorem tokenizeAux_fuel : ∀ (f1 f2 : ℕ) (l : List Char),
    l.length ≤ f1 → l.length ≤ f2 → tokenizeAux f1 l = tokenizeAux f2 l
  | 0, 0, _, _, _ => rfl
  | 0, _ + 1, l, h1, _ => by
    have : l = [] := List.length_eq_zero.mp (Nat.le_zero.mp h1)
    subst this
    rfl
  | _ + 1, 0, l, _, h2 => by
    have : l = [] := List.length_eq_zero.mp (Nat.le_zero.mp h2)
    subst this
    rfl
  | _ + 1, _ + 1, [], _, _ => rfl
  | f1 + 1, f2 + 1, c :: cs, h1, h2 => by
    have hcs1 : cs.length ≤ f1 := by
      simp only [List.length_cons] at h1
      omega
    have hcs2 : cs.length ≤ f2 := by
      simp only [List.length_cons] at h2
      omega
    simp only [tokenizeAux]
    split
    · rw [tokenizeAux_fuel f1 f2 cs hcs1 hcs2]
    · cases hs : scanNum (c :: cs) with
      | some p =>
        obtain ⟨q, rest⟩ := p
        have hr := scanNum_length hs
        simp only [List.length_cons] at hr
        dsimp only
        rw [tokenizeAux_fuel f1 f2 rest (by omega) (by omega)]
      | none =>
        dsimp only
        rw [tokenizeAux_fuel f1 f2 cs hcs1 hcs2]

/-- The grouping loop: numeric tokens are appended to the argument list of
the most recent command letter; numbers seen before any command letter are
accumulated but discarded when the first command letter arrives (and
discarded at end of input), exactly as in the Python loop where
`commands.append` only fires when `current_cmd is not None`. -/
def groupTokens : List Token → Option (Char × List ℚ) → List (Char × List ℚ)
  | [], none => []
  | [], some cur => [cur]
  | Token.cmd c :: ts, none => groupTokens ts (some (c, []))
  | Token.cmd c :: ts, some cur => cur :: groupTokens ts (some (c, []))
  | Token.num _ :: ts, none => groupTokens ts none
  | Token.num q :: ts, some (c, args) => groupTokens ts (some (c, args ++ [q]))

/-! ## Path-data interpreter

State of `parse_path_data`'s command loop.  `control_points` is the list
being built, `(cx, cy)` the current point, `(start_x, start_y)` the start
of the current subpath, `last_cp` the tracked last control point
(`last_cp_x, last_cp_y` in the source, both `None` or both set), and
`point_idx` the running counter used in point ids. -/

structure PState where
  control_points : List ControlPoint
  is_closed : Bool
  cx : ℚ
  cy : ℚ
  start_x : ℚ
  start_y : ℚ
  last_cp : Option (ℚ × ℚ)
  point_idx : ℕ
deriving DecidableEq, Repr

/-- The dict appended by the `M`/`L`/`H`/`V`/`A` branches
(`handleIn`/`handleOut` absent, `"type": "corner"`). -/
def cornerPoint (path_idx point_idx : ℕ) (x y : ℚ) : ControlPoint :=
  { id := "cp_" ++ toString path_idx ++ "_" ++ toString point_idx
  , x := x, y := y, handleIn := none, handleOut := none, type := PtType.corner }

/-- The dict appended by the `C`/`S`/`Q`/`T` branches (`handleIn` is the
second derived cubic control, `handleOut` absent, `"type": "smooth"`). -/
def curvePoint (path_idx point_idx : ℕ) (x y cp2x cp2y : ℚ) : ControlPoint :=
  { id := "cp_" ++ toString path_idx ++ "_" ++ toString point_idx
  , x := x, y := y, handleIn := some ⟨cp2x, cp2y⟩, handleOut := none
  , type := PtType.smooth }

/-- Mutation of the last list entry, `control_points[-1] = f(...)`, guarded
by `if control_points:` — a no-op on the empty list. -/
def updateLast (f : ControlPoint → ControlPoint) : List ControlPoint → List ControlPoint
  | [] => []
  | [p] => [f p]
  | p :: q :: rest => p :: updateLast f (q :: rest)

/-- The `M`/`m` branch.  The loop reads `args[i]` and `args[i + 1]` under
the guard `i < len(args)` only, so an odd-length argument list raises
`IndexError` (modelled as `none`).  The first pair sets the subpath start;
every pair appends a corner point and becomes the current point. -/
def process_M (path_idx : ℕ) (is_relative : Bool) :
    List ℚ → Bool → PState → Option PState
  | [], _, st => some st
  | [_], _, _ => none
  | a :: b :: rest, first, st =>
    process_M path_idx is_relative rest false
      { st with
        start_x := if first then a + (if is_relative then st.cx else 0) else st.start_x
        start_y := if first then b + (if is_relative then st.cy else 0) else st.start_y
        control_points := st.control_points ++
          [cornerPoint path_idx st.point_idx
            (a + (if is_relative then st.cx else 0))
            (b + (if is_relative then st.cy else 0))]
        point_idx := st.point_idx + 1
        cx := a + (if is_relative then st.cx else 0)
        cy := b + (if is_relative then st.cy else 0) }

/-- The `L`/`l` branch; same under-guarded loop as `M` (odd argument count
raises `IndexError`). -/
def process_L (path_idx : ℕ) (is_relative : Bool) :
    List ℚ → PState → Option PState
  | [], st => some st
  | [_], _ => none
  | a :: b :: rest, st =>
    process_L path_idx is_relative rest
      { st with
        control_points := st.control_points ++
          [cornerPoint path_idx st.point_idx
            (a + (if is_relative then st.cx else 0))
            (b + (if is_relative then st.cy else 0))]
        point_idx := st.point_idx + 1
        cx := a + (if is_relative then st.cx else 0)
        cy := b + (if is_relative then st.cy else 0) }

/-- The `H`/`h` branch: one corner point per scalar, `y` held at `cy`. -/
def process_H (path_idx : ℕ) (is_relative : Bool) : List ℚ → PState → PState
  | [], st => st
  | xv :: rest, st =>
    process_H path_idx is_relative rest
      { st with
        control_points := st.control_points ++
          [cornerPoint path_idx st.point_idx
            (xv + (if is_relative then st.cx else 0)) st.cy]
        point_idx := st.point_idx + 1
        cx := xv + (if is_relative then st.cx else 0) }

/-- The `V`/`v` branch: one corner point per scalar, `x` held at `cx`. -/
def process_V (path_idx : ℕ) (is_relative : Bool) : List ℚ → PState → PState
  | [], st => st
  | yv :: rest, st =>
    process_V path_idx is_relative rest
      { st with
        control_points := st.control_points ++
          [cornerPoint path_idx st.point_idx st.cx
            (yv + (if is_relative then st.cy else 0))]
        point_idx := st.point_idx + 1
        cy := yv + (if is_relative then st.cy else 0) }

/-- The `C`/`c` branch, six arguments per group (`while i + 5 < len(args)`;
a short trailing group is ignored).  Sets `handleOut` on the previous
point to the first control, promoting its type to `"smooth"` only when a
`handleIn` is already present, appends the endpoint with `handleIn` set to
the second control, and tracks the second control in `last_cp`. -/
def process_C (path_idx : ℕ) (is_relative : Bool) : List ℚ → PState → PState
  | a :: b :: c :: d :: e :: f :: rest, st =>
    process_C path_idx is_relative rest
      { st with
        control_points :=
          updateLast (fun p =>
            { p with
              handleOut := some ⟨a + (if is_relative then st.cx else 0),
                b + (if is_relative then st.cy else 0)⟩
              type := if p.handleIn.isSome then PtType.smooth else p.type })
            st.control_points ++
          [curvePoint path_idx st.point_idx
            (e + (if is_relative then st.cx else 0))
            (f + (if is_relative then st.cy else 0))
            (c + (if is_relative then st.cx else 0))
            (d + (if is_relative then st.cy else 0))]
        point_idx := st.point_idx + 1
        cx := e + (if is_relative then st.cx else 0)
        cy := f + (if is_relative then st.cy else 0)
        last_cp := some (c + (if is_relative then st.cx else 0),
          d + (if is_relative then st.cy else 0)) }
  | _, st => st

/-- The derived first control of an `S`/`s` (or the derived quadratic
control of a `T`/`t`): the reflection `(2*cx - lx, 2*cy - ly)` of the
tracked last control through the current point, or the current point
itself when none is tracked. -/
def reflectLast (st : PState) : ℚ × ℚ :=
  match st.last_cp with
  | some lc => (2 * st.cx - lc.1, 2 * st.cy - lc.2)
  | none => (st.cx, st.cy)

/-- The `S`/`s` branch, four arguments per group (`while i + 3 < len(args)`).
The first control is `reflectLast`; the previous point's type is set to
`"smooth"` unconditionally. -/
def process_S (path_idx : ℕ) (is_relative : Bool) : List ℚ → PState → PState
  | a :: b :: c :: d :: rest, st =>
    process_S path_idx is_relative rest
      { st with
        control_points :=
          updateLast (fun p =>
            { p with handleOut := some ⟨(reflectLast st).1, (reflectLast st).2⟩
                    , type := PtType.smooth }) st.control_points ++
          [curvePoint path_idx st.point_idx
            (c + (if is_relative then st.cx else 0))
            (d + (if is_relative then st.cy else 0))
            (a + (if is_relative then st.cx else 0))
            (b + (if is_relative then st.cy else 0))]
        point_idx := st.point_idx + 1
        cx := c + (if is_relative then st.cx else 0)
        cy := d + (if is_relative then st.cy else 0)
        last_cp := some (a + (if is_relative then st.cx else 0),
          b + (if is_relative then st.cy else 0)) }
  | _, st => st

/-- The `Q`/`q` branch, four arguments per group: degree raising
`CP1 = P0 + 2/3*(Q - P0)`, `CP2 = P1 + 2/3*(Q - P1)`; `last_cp` tracks the
quadratic control itself. -/
def process_Q (path_idx : ℕ) (is_relative : Bool) : List ℚ → PState → PState
  | a :: b :: c :: d :: rest, st =>
    process_Q path_idx is_relative rest
      { st with
        control_points :=
          updateLast (fun p =>
            { p with
              handleOut := some
                ⟨st.cx + 2 / 3 * ((a + (if is_relative then st.cx else 0)) - st.cx),
                 st.cy + 2 / 3 * ((b + (if is_relative then st.cy else 0)) - st.cy)⟩
              type := PtType.smooth }) st.control_points ++
          [curvePoint path_idx st.point_idx
            (c + (if is_relative then st.cx else 0))
            (d + (if is_relative then st.cy else 0))
            ((c + (if is_relative then st.cx else 0)) +
              2 / 3 * ((a + (if is_relative then st.cx else 0)) -
                (c + (if is_relative then st.cx else 0))))
            ((d + (if is_relative then st.cy else 0)) +
              2 / 3 * ((b + (if is_relative then st.cy else 0)) -
                (d + (if is_relative then st.cy else 0))))]
        point_idx := st.point_idx + 1
        cx := c + (if is_relative then st.cx else 0)
        cy := d + (if is_relative then st.cy else 0)
        last_cp := some (a + (if is_relative then st.cx else 0),
          b + (if is_relative then st.cy else 0)) }
  | _, st => st

/-- The `T`/`t` branch, two arguments per group: the quadratic control is
`reflectLast`, then conversion proceeds as for `Q`; `last_cp` tracks the
reflected quadratic control. -/
def process_T (path_idx : ℕ) (is_relative : Bool) : List ℚ → PState → PState
  | a :: b :: rest, st =>
    process_T path_idx is_relative rest
      { st with
        control_points :=
          updateLast (fun p =>
            { p with
              handleOut := some
                ⟨st.cx + 2 / 3 * ((reflectLast st).1 - st.cx),
                 st.cy + 2 / 3 * ((reflectLast st).2 - st.cy)⟩
              type := PtType.smooth }) st.control_points ++
          [curvePoint path_idx st.point_idx
            (a + (if is_relative then st.cx else 0))
            (b + (if is_relative then st.cy else 0))
            ((a + (if is_relative then st.cx else 0)) +
              2 / 3 * ((reflectLast st).1 - (a + (if is_relative then st.cx else 0))))
            ((b + (if is_relative then st.cy else 0)) +
              2 / 3 * ((reflectLast st).2 - (b + (if is_relative then st.cy else 0))))]
        point_idx := st.point_idx + 1
        cx := a + (if is_relative then st.cx else 0)
        cy := b + (if is_relative then st.cy else 0)
        last_cp := some ((reflectLast st).1, (reflectLast st).2) }
  | _, st => st

/-- The `A`/`a` branch, seven arguments per group
(`rx ry x-rotation large-arc sweep x y`): approximated by a straight line
to the endpoint `(args[i+5], args[i+6])`. -/
def process_A (path_idx : ℕ) (is_relative : Bool) : List ℚ → PState → PState
  | _ :: _ :: _ :: _ :: _ :: f :: g :: rest, st =>
    process_A path_idx is_relative rest
      { st with
        control_points := st.control_points ++
          [cornerPoint path_idx st.point_idx
            (f + (if is_relative then st.cx else 0))
            (g + (if is_relative then st.cy else 0))]
        point_idx := st.point_idx + 1
        cx := f + (if is_relative then st.cx else 0)
        cy := g + (if is_relative then st.cy else 0) }
  | _, st => st

/-- Dispatch on `cmd.upper()` with `is_relative = cmd.islower()`.  After
`M`, `L`, `H`, `V` and `A` the tracked `last_cp` is cleared; `Z` marks the
path closed, resets the current point to the subpath start and clears
`last_cp` without touching the point list. -/
def processCommand (path_idx : ℕ) (cmd : Char) (args : List ℚ) (st : PState) :
    Option PState :=
  match cmd.toUpper with
  | 'M' =>
    (process_M path_idx cmd.isLower args true st).map
      (fun s => { s with last_cp := none })
  | 'L' =>
    (process_L path_idx cmd.isLower args st).map
      (fun s => { s with last_cp := none })
  | 'H' => some { process_H path_idx cmd.isLower args st with last_cp := none }
  | 'V' => some { process_V path_idx cmd.isLower args st with last_cp := none }
  | 'C' => some (process_C path_idx cmd.isLower args st)
  | 'S' => some (process_S path_idx cmd.isLower args st)
  | 'Q' => some (process_Q path_idx cmd.isLower args st)
  | 'T' => some (process_T path_idx cmd.isLower args st)
  | 'A' => some { process_A path_idx cmd.isLower args st with last_cp := none }
  | 'Z' =>
    some { st with is_closed := true, cx := st.start_x, cy := st.start_y
                 , last_cp := none }
  | _ => some st

def processCommands (path_idx : ℕ) : List (Char × List ℚ) → PState → Option PState
  | [], st => some st
  | (c, args) :: rest, st =>
    match processCommand path_idx c args st with
    | none => none
    | some st2 => processCommands path_idx rest st2

def initState : PState :=
  { control_points := [], is_closed := false, cx := 0, cy := 0
  , start_x := 0, start_y := 0, last_cp := none, point_idx := 0 }

/-- Embedding of `parse_path_data(d, path_idx)`; `none` models an escaped
`IndexError`. -/
def parse_path_data (d : String) (path_idx : ℕ) :
    Option (List ControlPoint × Bool) :=
  (processCommands path_idx (groupTokens (tokenize d.data) none) initState).map
    (fun st => (st.control_points, st.is_closed))

/-! ## Document extractor

Embeds `re.findall(r'<path([^>]*)/?>', svg_string, re.IGNORECASE)` and the
attribute regexes `d=["\']([^"\']*)["\']` etc.  `<path` is matched
case-insensitively; the captured group runs from just after `<path` up to
(excluding) the first following `>`; scanning resumes after that `>`.
When `<path` is found but no `>` follows, no further match is possible
anywhere (the regex requires a `>`), matching the scan stopping. -/

/-- Split at the first `'>'`: chars before it and chars after it. -/
def splitAtGt : List Char → Option (List Char × List Char)
  | [] => none
  | c :: cs =>
    if c = '>' then some ([], cs)
    else (splitAtGt cs).map (fun p => (c :: p.1, p.2))

theorem splitAtGt_length : ∀ {l a r : List Char},
    splitAtGt l = some (a, r) → r.length < l.length := by
  intro l
  induction l with
  | nil => intro a r h; exact absurd h (by simp [splitAtGt])
  | cons c cs ih =>
    intro a r h
    rw [splitAtGt] at h
    split at h
    · have hr : cs = r := congrArg Prod.snd (Option.some.inj h)
      subst hr
      simp
    · rw [Option.map_eq_some'] at h
      obtain ⟨⟨a0, r0⟩, hb, hpr⟩ := h
      have h0 := ih hb
      have hr : r0 = r := congrArg Prod.snd hpr
      subst hr
      simp only [List.length_cons]
      omega

/-- Case-insensitive test for the literal `<path` at the head of the input. -/
def startsWithPathTag (l : List Char) : Bool :=
  (l.take 5).map Char.toLower == ['<', 'p', 'a', 't', 'h']

/-- The tag-scan loop, structurally recursive on a step budget.  Each
iteration advances by at least one character (`splitAtGt_length`), so a
budget of `l.length` steps never runs out; `findPathElemsAux_fuel` below
certifies that any sufficient budget yields the same result. -/
def findPathElemsAux : ℕ → List Char → List (List Char)
  | 0, _ => []
  | _ + 1, [] => []
  | fuel + 1, c :: cs =>
    if startsWithPathTag (c :: cs) then
      match splitAtGt ((c :: cs).drop 5) with
      | some (attrs, rest) => attrs :: findPathElemsAux fuel rest
      | none => findPathElemsAux fuel cs
    else findPathElemsAux fuel cs

/-- The attribute groups of all matched `<path ...>` elements, in document
order (the result of `re.findall(r'<path([^>]*)/?>', ...)`). -/
def findPathElems (l : List Char) : List (List Char) :=
  findPathElemsAux l.length l

theorem findPathElemsAux_fuel : ∀ (f1 f2 : ℕ) (l : List Char),
    l.length ≤ f1 → l.length ≤ f2 → findPathElemsAux f1 l = findPathElemsAux f2 l
  | 0, 0, _, _, _ => rfl
  | 0, _ + 1, l, h1, _ => by
    have : l = [] := List.length_eq_zero.mp (Nat.le_zero.mp h1)
    subst this
    rfl
  | _ + 1, 0, l, _, h2 => by
    have : l = [] := List.length_eq_zero.mp (Nat.le_zero.mp h2)
    subst this
    rfl
  | _ + 1, _ + 1, [], _, _ => rfl
  | f1 + 1, f2 + 1, c :: cs, h1, h2 => by
    have hcs1 : cs.length ≤ f1 := by
      simp only [List.length_cons] at h1
      omega
    have hcs2 : cs.length ≤ f2 := by
      simp only [List.length_cons] at h2
      omega
    simp only [findPathElemsAux]
    split
    · cases hs : splitAtGt ((c :: cs).drop 5) with
      | some p =>
        obtain ⟨attrs, rest⟩ := p
        have hr := splitAtGt_length hs
        have hd : ((c :: cs).drop 5).length ≤ (c :: cs).length := by
          simp only [List.length_drop, List.length_cons]
          omega
        simp only [List.length_cons] at hd h1 h2
        dsimp only
        rw [findPathElemsAux_fuel f1 f2 rest (by omega) (by omega)]
      | none =>
        dsimp only
        rw [findPathElemsAux_fuel f1 f2 cs hcs1 hcs2]
    · rw [findPathElemsAux_fuel f1 f2 cs hcs1 hcs2]

def isQuoteChar (c : Char) : Bool :=
  c = '"' || c = Char.ofNat 39

/-- Value capture after `name=` has been matched: a quote (`"` or `'`),
then `[^"\']*`, then a closing quote of either kind; `none` when the
position does not complete a match. -/
def matchAttrValue : List Char → Option (List Char)
  | [] => none
  | q :: rest =>
    if isQuoteChar q then
      if (rest.drop (rest.takeWhile (fun c => !(isQuoteChar c))).length).isEmpty
      then none
      else some (rest.takeWhile (fun c => !(isQuoteChar c)))
    else none

def listStartsWith : List Char → List Char → Bool
  | [], _ => true
  | _ :: _, [] => false
  | p :: ps, c :: cs => p == c && listStartsWith ps cs

/-- Embeds `re.search(name + r'=["\']([^"\']*)["\']', attrs)`: the capture
of the first position where the whole pattern matches.  `name` includes
the `=` (e.g. `d=`), and — exactly like the Python regexes — may match
inside a longer attribute name or inside another attribute's value. -/
def searchAttr (name : List Char) : List Char → Option (List Char)
  | [] => none
  | c :: cs =>
    if listStartsWith name (c :: cs) then
      match matchAttrValue ((c :: cs).drop name.length) with
      | some v => some v
      | none => searchAttr name cs
    else searchAttr name cs

/-- The per-element loop `for idx, attrs in enumerate(path_elements)` of
`parse_svg_to_paths`: skip elements without a `d` attribute, filter
invisible ones (`fill == "none"` and no effective stroke), drop parses
with fewer than two points, and otherwise emit a `PathRecord` named by the
enumeration index.  A `none` from `parse_path_data` (escaped exception)
aborts the whole call. -/
def attrOrEmpty (name attrs : List Char) : String :=
  match searchAttr name attrs with
  | some v => String.mk v
  | none => ""

def buildPaths : List (List Char) → ℕ → Option (List PathRecord)
  | [], _ => some []
  | attrs :: rest, idx =>
    match searchAttr ['d', '='] attrs with
    | none => buildPaths rest (idx + 1)
    | some dval =>
      if attrOrEmpty "fill=".data attrs = "none" ∧
          (attrOrEmpty "stroke=".data attrs = "" ∨
           attrOrEmpty "stroke=".data attrs = "none") then
        buildPaths rest (idx + 1)
      else
        match parse_path_data (String.mk dval) idx with
        | none => none
        | some (cps, isClosed) =>
          if cps.length < 2 then buildPaths rest (idx + 1)
          else
            (buildPaths rest (idx + 1)).map (fun ps =>
              { id := "path_" ++ toString idx
              , fill :=
                  if attrOrEmpty "fill=".data attrs ≠ "none" then
                    attrOrEmpty "fill=".data attrs
                  else ""
              , stroke :=
                  if attrOrEmpty "stroke=".data attrs ≠ "none" then
                    attrOrEmpty "stroke=".data attrs
                  else ""
              , controlPoints := cps
              , closed := isClosed } :: ps)

/-- Embedding of `parse_svg_to_paths(svg_string, img_width, img_height)`.
The two dimension arguments are accepted and, as in the source, never
used.  `none` models an escaped exception. -/
def parse_svg_to_paths (svg_string : String) (img_width img_height : ℤ) :
    Option (List PathRecord) :=
  buildPaths (findPathElems svg_string.data) 0

/-! ## Derived notions used by the claim statements -/

/-- Anchor coordinates of a parse result. -/
def anchors (r : List ControlPoint × Bool) : List (ℚ × ℚ) :=
  r.1.map (fun p => (p.x, p.y))

/-- Running absolutization of a flat relative coordinate list against a
current point: pair `i` becomes the current point reached after pair
`i - 1` plus the offsets.  (A dangling odd scalar is shifted by `cx` so
that both the relative and the absolutized list fail identically.) -/
def absolutize : ℚ → ℚ → List ℚ → List ℚ
  | _, _, [] => []
  | cx, _, [a] => [a + cx]
  | cx, cy, a :: b :: rest => (a + cx) :: (b + cy) :: absolutize (a + cx) (b + cy) rest

/-- Every point id lives in the namespace of path index `idx`. -/
def pointIdsNamespaced (idx : ℕ) (cps : List ControlPoint) : Prop :=
  ∀ cp ∈ cps, ∃ k : ℕ, cp.id = "cp_" ++ toString idx ++ "_" ++ toString k

/-- The records carry strictly increasing element indices, all `≥ n`, each
naming its record id and namespacing its point ids. -/
def recsIndexedFrom : ℕ → List PathRecord → Prop
  | _, [] => True
  | n, r :: rs =>
    ∃ idx, n ≤ idx ∧ r.id = "path_" ++ toString idx ∧
      pointIdsNamespaced idx r.controlPoints ∧ recsIndexedFrom (idx + 1) rs

/-- A point with both handles present is typed `"smooth"`. -/
def bothHandlesSmooth (p : ControlPoint) : Prop :=
  p.handleIn.isSome = true → p.handleOut.isSome = true → p.type = PtType.smooth

/-- The final point of the list, if any, has no outgoing handle. -/
def lastHandleOutNone (ps : List ControlPoint) : Prop :=
  ∀ p, ps.getLast? = some p → p.handleOut = none

/-! ## Helper lemmas about `updateLast` and the per-command loops -/

theorem updateLast_append_singleton (f : ControlPoint → ControlPoint) :
    ∀ (ps : List ControlPoint) (p : ControlPoint),
      updateLast f (ps ++ [p]) = ps ++ [f p]
  | [], _ => rfl
  | [_], _ => rfl
  | q :: r :: rs, p => by
    have ih := updateLast_append_singleton f (r :: rs) p
    simp only [List.cons_append] at ih ⊢
    rw [updateLast, ih]

theorem forall_mem_updateLast {P : ControlPoint → Prop}
    (f : ControlPoint → ControlPoint) (hf : ∀ p, P p → P (f p)) :
    ∀ ps : List ControlPoint, (∀ p ∈ ps, P p) → ∀ q ∈ updateLast f ps, P q := by
  intro ps
  induction ps with
  | nil => intro _ q hq; simp [updateLast] at hq
  | cons p rest ih =>
    intro h q hq
    cases rest with
    | nil =>
      rw [show updateLast f [p] = [f p] from rfl] at hq
      rw [List.mem_singleton] at hq
      subst hq
      exact hf p (h p (by simp))
    | cons r rs =>
      rw [show updateLast f (p :: r :: rs) = p :: updateLast f (r :: rs) from rfl] at hq
      rcases List.mem_cons.mp hq with rfl | hq2
      · exact h q (by simp)
      · exact ih (fun x hx => h x (List.mem_cons_of_mem _ hx)) q hq2

theorem forall_mem_append_singleton {P : ControlPoint → Prop}
    {ps : List ControlPoint} {q : ControlPoint}
    (h : ∀ p ∈ ps, P p) (hq : P q) : ∀ p ∈ ps ++ [q], P p := by
  intro p hp
  rcases List.mem_append.mp hp with h1 | h1
  · exact h p h1
  · rw [List.mem_singleton] at h1
    subst h1
    exact hq

theorem lastHandleOutNone_concat (ps : List ControlPoint) (q : ControlPoint)
    (hq : q.handleOut = none) : lastHandleOutNone (ps ++ [q]) := by
  intro p hp
  rw [List.getLast?_concat] at hp
  cases hp
  exact hq

/-! Predicate preservation through each command branch.  `hCorner`/`hCurve`
say the predicate holds of freshly appended points, `hUpdC`/`hUpdS` that it
survives the two retroactive `handleOut` writes (the `C` one, which only
promotes the type when a `handleIn` is present, and the unconditional
`S`/`Q`/`T` one). -/

theorem process_M_pred (path_idx : ℕ) (is_relative : Bool)
    (P : ControlPoint → Prop)
    (hCorner : ∀ n x y, P (cornerPoint path_idx n x y)) :
    ∀ (args : List ℚ) (first : Bool) (st st' : PState),
      process_M path_idx is_relative args first st = some st' →
      (∀ p ∈ st.control_points, P p) → ∀ p ∈ st'.control_points, P p
  | [], _, st, st', h, hst => by
    rw [process_M] at h
    cases h
    exact hst
  | [_], _, _, _, h, _ => by
    rw [process_M] at h
    simp at h
  | a :: b :: rest, first, st, st', h, hst => by
    rw [process_M] at h
    exact process_M_pred path_idx is_relative P hCorner rest false _ st' h
      (forall_mem_append_singleton hst (hCorner _ _ _))

theorem process_L_pred (path_idx : ℕ) (is_relative : Bool)
    (P : ControlPoint → Prop)
    (hCorner : ∀ n x y, P (cornerPoint path_idx n x y)) :
    ∀ (args : List ℚ) (st st' : PState),
      process_L path_idx is_relative args st = some st' →
      (∀ p ∈ st.control_points, P p) → ∀ p ∈ st'.control_points, P p
  | [], st, st', h, hst => by
    rw [process_L] at h
    cases h
    exact hst
  | [_], _, _, h, _ => by
    rw [process_L] at h
    simp at h
  | a :: b :: rest, st, st', h, hst => by
    rw [process_L] at h
    exact process_L_pred path_idx is_relative P hCorner rest _ st' h
      (forall_mem_append_singleton hst (hCorner _ _ _))

theorem process_H_pred (path_idx : ℕ) (is_relative : Bool)
    (P : ControlPoint → Prop)
    (hCorner : ∀ n x y, P (cornerPoint path_idx n x y)) :
    ∀ (args : List ℚ) (st : PState),
      (∀ p ∈ st.control_points, P p) →
      ∀ p ∈ (process_H path_idx is_relative args st).control_points, P p
  | [], st, hst => by
    rw [process_H]
    exact hst
  | xv :: rest, st, hst => by
    rw [process_H]
    exact process_H_pred path_idx is_relative P hCorner rest _
      (forall_mem_append_singleton hst (hCorner _ _ _))

theorem process_V_pred (path_idx : ℕ) (is_relative : Bool)
    (P : ControlPoint → Prop)
    (hCorner : ∀ n x y, P (cornerPoint path_idx n x y)) :
    ∀ (args : List ℚ) (st : PState),
      (∀ p ∈ st.control_points, P p) →
      ∀ p ∈ (process_V path_idx is_relative args st).control_points, P p
  | [], st, hst => by
    rw [process_V]
    exact hst
  | yv :: rest, st, hst => by
    rw [process_V]
    exact process_V_pred path_idx is_relative P hCorner rest _
      (forall_mem_append_singleton hst (hCorner _ _ _))

theorem process_A_pred (path_idx : ℕ) (is_relative : Bool)
    (P : ControlPoint → Prop)
    (hCorner : ∀ n x y, P (cornerPoint path_idx n x y)) :
    ∀ (args : List ℚ) (st : PState),
      (∀ p ∈ st.control_points, P p) →
      ∀ p ∈ (process_A path_idx is_relative args st).control_points, P p
  | _ :: _ :: _ :: _ :: _ :: f :: g :: rest, st, hst => by
    rw [process_A]
    exact process_A_pred path_idx is_relative P hCorner rest _
      (forall_mem_append_singleton hst (hCorner _ _ _))
  | [], _, hst => hst
  | [_], _, hst => hst
  | [_, _], _, hst => hst
  | [_, _, _], _, hst => hst
  | [_, _, _, _], _, hst => hst
  | [_, _, _, _, _], _, hst => hst
  | [_, _, _, _, _, _], _, hst => hst

theorem process_C_pred (path_idx : ℕ) (is_relative : Bool)
    (P : ControlPoint → Prop)
    (hCurve : ∀ n x y u v, P (curvePoint path_idx n x y u v))
    (hUpdC : ∀ (hx hy : ℚ) (p : ControlPoint), P p →
      P { p with handleOut := some ⟨hx, hy⟩
               , type := if p.handleIn.isSome then PtType.smooth else p.type }) :
    ∀ (args : List ℚ) (st : PState),
      (∀ p ∈ st.control_points, P p) →
      ∀ p ∈ (process_C path_idx is_relative args st).control_points, P p
  | a :: b :: c :: d :: e :: f :: rest, st, hst => by
    rw [process_C]
    exact process_C_pred path_idx is_relative P hCurve hUpdC rest _
      (forall_mem_append_singleton
        (forall_mem_updateLast _ (hUpdC _ _) st.control_points hst)
        (hCurve _ _ _ _ _))
  | [], _, hst => hst
  | [_], _, hst => hst
  | [_, _], _, hst => hst
  | [_, _, _], _, hst => hst
  | [_, _, _, _], _, hst => hst
  | [_, _, _, _, _], _, hst => hst

theorem process_S_pred (path_idx : ℕ) (is_relative : Bool)
    (P : ControlPoint → Prop)
    (hCurve : ∀ n x y u v, P (curvePoint path_idx n x y u v))
    (hUpdS : ∀ (hx hy : ℚ) (p : ControlPoint), P p →
      P { p with handleOut := some ⟨hx, hy⟩, type := PtType.smooth }) :
    ∀ (args : List ℚ) (st : PState),
      (∀ p ∈ st.control_points, P p) →
      ∀ p ∈ (process_S path_idx is_relative args st).control_points, P p
  | a :: b :: c :: d :: rest, st, hst => by
    rw [process_S]
    exact process_S_pred path_idx is_relative P hCurve hUpdS rest _
      (forall_mem_append_singleton
        (forall_mem_updateLast _ (hUpdS _ _) st.control_points hst)
        (hCurve _ _ _ _ _))
  | [], _, hst => hst
  | [_], _, hst => hst
  | [_, _], _, hst => hst
  | [_, _, _], _, hst => hst

theorem process_Q_pred (path_idx : ℕ) (is_relative : Bool)
    (P : ControlPoint → Prop)
    (hCurve : ∀ n x y u v, P (curvePoint path_idx n x y u v))
    (hUpdS : ∀ (hx hy : ℚ) (p : ControlPoint), P p →
      P { p with handleOut := some ⟨hx, hy⟩, type := PtType.smooth }) :
    ∀ (args : List ℚ) (st : PState),
      (∀ p ∈ st.control_points, P p) →
      ∀ p ∈ (process_Q path_idx is_relative args st).control_points, P p
  | a :: b :: c :: d :: rest, st, hst => by
    rw [process_Q]
    exact process_Q_pred path_idx is_relative P hCurve hUpdS rest _
      (forall_mem_append_singleton
        (forall_mem_updateLast _ (hUpdS _ _) st.control_points hst)
        (hCurve _ _ _ _ _))
  | [], _, hst => hst
  | [_], _, hst => hst
  | [_, _], _, hst => hst
  | [_, _, _], _, hst => hst

theorem process_T_pred (path_idx : ℕ) (is_relative : Bool)
    (P : ControlPoint → Prop)
    (hCurve : ∀ n x y u v, P (curvePoint path_idx n x y u v))
    (hUpdS : ∀ (hx hy : ℚ) (p : ControlPoint), P p →
      P { p with handleOut := some ⟨hx, hy⟩, type := PtType.smooth }) :
    ∀ (args : List ℚ) (st : PState),
      (∀ p ∈ st.control_points, P p) →
      ∀ p ∈ (process_T path_idx is_relative args st).control_points, P p
  | a :: b :: rest, st, hst => by
    rw [process_T]
    exact process_T_pred path_idx is_relative P hCurve hUpdS rest _
      (forall_mem_append_singleton
        (forall_mem_updateLast _ (hUpdS _ _) st.control_points hst)
        (hCurve _ _ _ _ _))
  | [], _, hst => hst
  | [_], _, hst => hst

theorem processCommand_pred (path_idx : ℕ) (P : ControlPoint → Prop)
    (hCorner : ∀ n x y, P (cornerPoint path_idx n x y))
    (hCurve : ∀ n x y u v, P (curvePoint path_idx n x y u v))
    (hUpdC : ∀ (hx hy : ℚ) (p : ControlPoint), P p →
      P { p with handleOut := some ⟨hx, hy⟩
               , type := if p.handleIn.isSome then PtType.smooth else p.type })
    (hUpdS : ∀ (hx hy : ℚ) (p : ControlPoint), P p →
      P { p with handleOut := some ⟨hx, hy⟩, type := PtType.smooth })
    (cmd : Char) (args : List ℚ) (st st' : PState)
    (h : processCommand path_idx cmd args st = some st')
    (hst : ∀ p ∈ st.control_points, P p) : ∀ p ∈ st'.control_points, P p := by
  rw [processCommand] at h
  split at h
  · rw [Option.map_eq_some'] at h
    obtain ⟨s, hs, rfl⟩ := h
    exact process_M_pred path_idx cmd.isLower P hCorner args true st s hs hst
  · rw [Option.map_eq_some'] at h
    obtain ⟨s, hs, rfl⟩ := h
    exact process_L_pred path_idx cmd.isLower P hCorner args st s hs hst
  · cases h
    exact process_H_pred path_idx cmd.isLower P hCorner args st hst
  · cases h
    exact process_V_pred path_idx cmd.isLower P hCorner args st hst
  · cases h
    exact process_C_pred path_idx cmd.isLower P hCurve hUpdC args st hst
  · cases h
    exact process_S_pred path_idx cmd.isLower P hCurve hUpdS args st hst
  · cases h
    exact process_Q_pred path_idx cmd.isLower P hCurve hUpdS args st hst
  · cases h
    exact process_T_pred path_idx cmd.isLower P hCurve hUpdS args st hst
  · cases h
    exact process_A_pred path_idx cmd.isLower P hCorner args st hst
  · cases h
    exact hst
  · cases h
    exact hst

theorem processCommands_pred (path_idx : ℕ) (P : ControlPoint → Prop)
    (hCorner : ∀ n x y, P (cornerPoint path_idx n x y))
    (hCurve : ∀ n x y u v, P (curvePoint path_idx n x y u v))
    (hUpdC : ∀ (hx hy : ℚ) (p : ControlPoint), P p →
      P { p with handleOut := some ⟨hx, hy⟩
               , type := if p.handleIn.isSome then PtType.smooth else p.type })
    (hUpdS : ∀ (hx hy : ℚ) (p : ControlPoint), P p →
      P { p with handleOut := some ⟨hx, hy⟩, type := PtType.smooth }) :
    ∀ (cmds : List (Char × List ℚ)) (st st' : PState),
      processCommands path_idx cmds st = some st' →
      (∀ p ∈ st.control_points, P p) → ∀ p ∈ st'.control_points, P p
  | [], st, st', h, hst => by
    rw [processCommands] at h
    cases h
    exact hst
  | (c, args) :: rest, st, st', h, hst => by
    rw [processCommands] at h
    split at h
    · simp at h
    next st2 hst2 =>
      exact processCommands_pred path_idx P hCorner hCurve hUpdC hUpdS rest st2 st' h
        (processCommand_pred path_idx P hCorner hCurve hUpdC hUpdS c args st st2 hst2 hst)

/-- Every point of a successful `parse_path_data` satisfies any predicate
that holds of freshly appended points and survives the retroactive
`handleOut` writes. -/
theorem parse_path_data_pred (path_idx : ℕ) (P : ControlPoint → Prop)
    (hCorner : ∀ n x y, P (cornerPoint path_idx n x y))
    (hCurve : ∀ n x y u v, P (curvePoint path_idx n x y u v))
    (hUpdC : ∀ (hx hy : ℚ) (p : ControlPoint), P p →
      P { p with handleOut := some ⟨hx, hy⟩
               , type := if p.handleIn.isSome then PtType.smooth else p.type })
    (hUpdS : ∀ (hx hy : ℚ) (p : ControlPoint), P p →
      P { p with handleOut := some ⟨hx, hy⟩, type := PtType.smooth })
    (d : String) (r : List ControlPoint × Bool)
    (h : parse_path_data d path_idx = some r) : ∀ p ∈ r.1, P p := by
  rw [parse_path_data, Option.map_eq_some'] at h
  obtain ⟨st, hst, rfl⟩ := h
  exact processCommands_pred path_idx P hCorner hCurve hUpdC hUpdS
    (groupTokens (tokenize d.data) none) initState st hst (by simp [initState])

/-! Preservation of `lastHandleOutNone`: every branch either leaves the
point list untouched or ends it with a freshly appended point, whose
`handleOut` is `none` by construction; the retroactive `handleOut` writes
always target a point that is no longer last. -/

theorem process_M_last (path_idx : ℕ) (is_relative : Bool) :
    ∀ (args : List ℚ) (first : Bool) (st st' : PState),
      process_M path_idx is_relative args first st = some st' →
      lastHandleOutNone st.control_points → lastHandleOutNone st'.control_points
  | [], _, st, st', h, hst => by
    rw [process_M] at h
    cases h
    exact hst
  | [_], _, _, _, h, _ => by
    rw [process_M] at h
    simp at h
  | a :: b :: rest, first, st, st', h, hst => by
    rw [process_M] at h
    exact process_M_last path_idx is_relative rest false _ st' h
      (lastHandleOutNone_concat _ _ rfl)

theorem process_L_last (path_idx : ℕ) (is_relative : Bool) :
    ∀ (args : List ℚ) (st st' : PState),
      process_L path_idx is_relative args st = some st' →
      lastHandleOutNone st.control_points → lastHandleOutNone st'.control_points
  | [], st, st', h, hst => by
    rw [process_L] at h
    cases h
    exact hst
  | [_], _, _, h, _ => by
    rw [process_L] at h
    simp at h
  | a :: b :: rest, st, st', h, hst => by
    rw [process_L] at h
    exact process_L_last path_idx is_relative rest _ st' h
      (lastHandleOutNone_concat _ _ rfl)

theorem process_H_last (path_idx : ℕ) (is_relative : Bool) :
    ∀ (args : List ℚ) (st : PState),
      lastHandleOutNone st.control_points →
      lastHandleOutNone (process_H path_idx is_relative args st).control_points
  | [], st, hst => hst
  | xv :: rest, st, hst => by
    rw [process_H]
    exact process_H_last path_idx is_relative rest _
      (lastHandleOutNone_concat _ _ rfl)

theorem process_V_last (path_idx : ℕ) (is_relative : Bool) :
    ∀ (args : List ℚ) (st : PState),
      lastHandleOutNone st.control_points →
      lastHandleOutNone (process_V path_idx is_relative args st).control_points
  | [], st, hst => hst
  | yv :: rest, st, hst => by
    rw [process_V]
    exact process_V_last path_idx is_relative rest _
      (lastHandleOutNone_concat _ _ rfl)

theorem process_A_last (path_idx : ℕ) (is_relative : Bool) :
    ∀ (args : List ℚ) (st : PState),
      lastHandleOutNone st.control_points →
      lastHandleOutNone (process_A path_idx is_relative args st).control_points
  | _ :: _ :: _ :: _ :: _ :: f :: g :: rest, st, hst => by
    rw [process_A]
    exact process_A_last path_idx is_relative rest _
      (lastHandleOutNone_concat _ _ rfl)
  | [], _, hst => hst
  | [_], _, hst => hst
  | [_, _], _, hst => hst
  | [_, _, _], _, hst => hst
  | [_, _, _, _], _, hst => hst
  | [_, _, _, _, _], _, hst => hst
  | [_, _, _, _, _, _], _, hst => hst

theorem process_C_last (path_idx : ℕ) (is_relative : Bool) :
    ∀ (args : List ℚ) (st : PState),
      lastHandleOutNone st.control_points →
      lastHandleOutNone (process_C path_idx is_relative args st).control_points
  | a :: b :: c :: d :: e :: f :: rest, st, hst => by
    rw [process_C]
    exact process_C_last path_idx is_relative rest _
      (lastHandleOutNone_concat _ _ rfl)
  | [], _, hst => hst
  | [_], _, hst => hst
  | [_, _], _, hst => hst
  | [_, _, _], _, hst => hst
  | [_, _, _, _], _, hst => hst
  | [_, _, _, _, _], _, hst => hst

theorem process_S_last (path_idx : ℕ) (is_relative : Bool) :
    ∀ (args : List ℚ) (st : PState),
      lastHandleOutNone st.control_points →
      lastHandleOutNone (process_S path_idx is_relative args st).control_points
  | a :: b :: c :: d :: rest, st, hst => by
    rw [process_S]
    exact process_S_last path_idx is_relative rest _
      (lastHandleOutNone_concat _ _ rfl)
  | [], _, hst => hst
  | [_], _, hst => hst
  | [_, _], _, hst => hst
  | [_, _, _], _, hst => hst

theorem process_Q_last (path_idx : ℕ) (is_relative : Bool) :
    ∀ (args : List ℚ) (st : PState),
      lastHandleOutNone st.control_points →
      lastHandleOutNone (process_Q path_idx is_relative args st).control_points
  | a :: b :: c :: d :: rest, st, hst => by
    rw [process_Q]
    exact process_Q_last path_idx is_relative rest _
      (lastHandleOutNone_concat _ _ rfl)
  | [], _, hst => hst
  | [_], _, hst => hst
  | [_, _], _, hst => hst
  | [_, _, _], _, hst => hst

theorem process_T_last (path_idx : ℕ) (is_relative : Bool) :
    ∀ (args : List ℚ) (st : PState),
      lastHandleOutNone st.control_points →
      lastHandleOutNone (process_T path_idx is_relative args st).control_points
  | a :: b :: rest, st, hst => by
    rw [process_T]
    exact process_T_last path_idx is_relative rest _
      (lastHandleOutNone_concat _ _ rfl)
  | [], _, hst => hst
  | [_], _, hst => hst

theorem processCommand_last (path_idx : ℕ) (cmd : Char) (args : List ℚ)
    (st st' : PState) (h : processCommand path_idx cmd args st = some st')
    (hst : lastHandleOutNone st.control_points) :
    lastHandleOutNone st'.control_points := by
  rw [processCommand] at h
  split at h
  · rw [Option.map_eq_some'] at h
    obtain ⟨s, hs, rfl⟩ := h
    exact process_M_last path_idx cmd.isLower args true st s hs hst
  · rw [Option.map_eq_some'] at h
    obtain ⟨s, hs, rfl⟩ := h
    exact process_L_last path_idx cmd.isLower args st s hs hst
  · cases h
    exact process_H_last path_idx cmd.isLower args st hst
  · cases h
    exact process_V_last path_idx cmd.isLower args st hst
  · cases h
    exact process_C_last path_idx cmd.isLower args st hst
  · cases h
    exact process_S_last path_idx cmd.isLower args st hst
  · cases h
    exact process_Q_last path_idx cmd.isLower args st hst
  · cases h
    exact process_T_last path_idx cmd.isLower args st hst
  · cases h
    exact process_A_last path_idx cmd.isLower args st hst
  · cases h
    exact hst
  · cases h
    exact hst

theorem processCommands_last (path_idx : ℕ) :
    ∀ (cmds : List (Char × List ℚ)) (st st' : PState),
      processCommands path_idx cmds st = some st' →
      lastHandleOutNone st.control_points → lastHandleOutNone st'.control_points
  | [], st, st', h, hst => by
    rw [processCommands] at h
    cases h
    exact hst
  | (c, args) :: rest, st, st', h, hst => by
    rw [processCommands] at h
    split at h
    · simp at h
    next st2 hst2 =>
      exact processCommands_last path_idx rest st2 st' h
        (processCommand_last path_idx c args st st2 hst2 hst)

theorem parse_path_data_last (d : String) (path_idx : ℕ)
    (r : List ControlPoint × Bool) (h : parse_path_data d path_idx = some r) :
    lastHandleOutNone r.1 := by
  rw [parse_path_data, Option.map_eq_some'] at h
  obtain ⟨st, hst, rfl⟩ := h
  exact processCommands_last path_idx (groupTokens (tokenize d.data) none)
    initState st hst (by intro p hp; simp [initState] at hp)

/-! ## Helper lemmas about the document loop -/

theorem buildPaths_min_points :
    ∀ (elems : List (List Char)) (idx : ℕ) (l : List PathRecord),
      buildPaths elems idx = some l → ∀ rec ∈ l, 2 ≤ rec.controlPoints.length
  | [], _, l, h => by
    rw [buildPaths] at h
    cases h
    simp
  | attrs :: rest, idx, l, h => by
    rw [buildPaths] at h
    split at h
    · exact buildPaths_min_points rest _ l h
    · split at h
      · exact buildPaths_min_points rest _ l h
      · split at h
        · simp at h
        next cps isClosed heq =>
          split at h
          · exact buildPaths_min_points rest _ l h
          next hlen =>
            rw [Option.map_eq_some'] at h
            obtain ⟨ps, hps, rfl⟩ := h
            intro rec hrec
            rcases List.mem_cons.mp hrec with rfl | hmem
            · exact Nat.le_of_not_lt hlen
            · exact buildPaths_min_points rest _ ps hps rec hmem

theorem recsIndexedFrom_mono :
    ∀ (rs : List PathRecord) (m n : ℕ), m ≤ n →
      recsIndexedFrom n rs → recsIndexedFrom m rs
  | [], _, _, _, _ => trivial
  | r :: rs, m, n, hmn, h => by
    obtain ⟨idx, hn, hid, hns, hrest⟩ := h
    exact ⟨idx, le_trans hmn hn, hid, hns, hrest⟩

theorem buildPaths_indexed :
    ∀ (elems : List (List Char)) (idx : ℕ) (l : List PathRecord),
      buildPaths elems idx = some l → recsIndexedFrom idx l
  | [], _, l, h => by
    rw [buildPaths] at h
    cases h
    trivial
  | attrs :: rest, idx, l, h => by
    rw [buildPaths] at h
    split at h
    · exact recsIndexedFrom_mono l idx (idx + 1) (by omega)
        (buildPaths_indexed rest _ l h)
    · split at h
      · exact recsIndexedFrom_mono l idx (idx + 1) (by omega)
          (buildPaths_indexed rest _ l h)
      · split at h
        · simp at h
        next cps isClosed heq =>
          split at h
          · exact recsIndexedFrom_mono l idx (idx + 1) (by omega)
              (buildPaths_indexed rest _ l h)
          · rw [Option.map_eq_some'] at h
            obtain ⟨ps, hps, rfl⟩ := h
            refine ⟨idx, le_refl idx, rfl, ?_, buildPaths_indexed rest _ ps hps⟩
            exact parse_path_data_pred idx
              (fun p => ∃ k : ℕ, p.id = "cp_" ++ toString idx ++ "_" ++ toString k)
              (fun n x y => ⟨n, rfl⟩) (fun n x y u v => ⟨n, rfl⟩)
              (fun hx hy p hp => hp) (fun hx hy p hp => hp)
              _ (cps, isClosed) heq

/-! ## Helper lemma for relative/absolute equivalence of `L` -/

theorem process_L_rel_abs (path_idx : ℕ) :
    ∀ (args : List ℚ) (st : PState),
      process_L path_idx true args st =
        process_L path_idx false (absolutize st.cx st.cy args) st
  | [], _ => rfl
  | [_], _ => rfl
  | a :: b :: rest, st => by
    have ih := process_L_rel_abs path_idx rest
    rw [absolutize, process_L, process_L]
    simp only [if_true, Bool.false_eq_true, if_false, add_zero]
    exact ih _

/-! ## The claims -/

/-- C1: the claim says `parse_svg_to_paths` (with its call to
`parse_path_data`) never raises and returns a result for every input, any
malformed input only producing fewer paths.  The code violates this: the
`M`/`L` loops read `args[i + 1]` under the guard `i < len(args)` alone, so
an odd-length argument list — e.g. `d="M 0"` — raises `IndexError`
(modelled as `none`), which escapes both functions. -/
theorem c1_core_raises_index_error :
    parse_path_data "M 0" 0 = none ∧
    parse_svg_to_paths "<svg><path d=\"M 0\" fill=\"red\"/></svg>" 100 100 = none :=
  ⟨by decide, by decide⟩

/-- C2 counterexample: the claim says a retained record's index is its
position among retained records, skipped or filtered elements not
advancing it.  In the code `enumerate(path_elements)` numbers ALL matched
`<path>` elements before any filtering: after one skipped element (no
`d`), the sole retained record is named `path_1`, not `path_0`. -/
theorem c2_index_counts_all_elements :
    (parse_svg_to_paths
        "<svg><path fill=\"none\"/><path d=\"M0,0 L10,10 L20,0\" fill=\"red\"/></svg>"
        100 100).map (fun l => l.map PathRecord.id) = some ["path_1"] ∧
    "path_1" ≠ "path_0" :=
  ⟨by decide, by decide⟩

/-- C2 (amended): each returned PathRecord's id is `path_<idx>` where
`idx` is the element's index among ALL matched `<path>` elements in
document order — skipped and filtered elements DO advance the index — so
the ids carry strictly increasing element indices starting at 0, and the
same index namespaces the record's point ids (`cp_<idx>_<k>`). -/
theorem c2_path_ids_indexed (svg : String) (w h : ℤ) (l : List PathRecord)
    (hl : parse_svg_to_paths svg w h = some l) : recsIndexedFrom 0 l := by
  rw [parse_svg_to_paths] at hl
  exact buildPaths_indexed _ 0 l hl

/-- Witness for C2 at the counterexample document: the single record is
`path_1` with points `cp_1_0`, `cp_1_1`, `cp_1_2`. -/
theorem c2_path_ids_indexed_witness :
    recsIndexedFrom 0
      [⟨"path_1", "red", "",
        [⟨"cp_1_0", 0, 0, none, none, PtType.corner⟩,
         ⟨"cp_1_1", 10, 10, none, none, PtType.corner⟩,
         ⟨"cp_1_2", 20, 0, none, none, PtType.corner⟩], false⟩] :=
  c2_path_ids_indexed
    "<svg><path fill=\"none\"/><path d=\"M0,0 L10,10 L20,0\" fill=\"red\"/></svg>"
    100 100
    [⟨"path_1", "red", "",
      [⟨"cp_1_0", 0, 0, none, none, PtType.corner⟩,
       ⟨"cp_1_1", 10, 10, none, none, PtType.corner⟩,
       ⟨"cp_1_2", 20, 0, none, none, PtType.corner⟩], false⟩]
    (by simp +decide [parse_svg_to_paths, buildPaths, attrOrEmpty, searchAttr,
      matchAttrValue, listStartsWith, isQuoteChar, findPathElems, findPathElemsAux,
      startsWithPathTag, splitAtGt, parse_path_data, tokenize, tokenizeAux,
      isCmdChar, scanNum, scanNumBody, scanMantissa, scanExp, scanExpDigits,
      takeDigits, digitsVal, groupTokens, processCommands, processCommand,
      process_M, process_L, process_H, process_V, process_A, process_C, process_S,
      process_Q, process_T, reflectLast, updateLast, cornerPoint, curvePoint,
      initState, Char.isDigit, Char.isLower, Char.toUpper, Char.toLower] <;> norm_num)

/-- C3: for every `S`/`s` coordinate group the derived first cubic control
is the point reflection `(2*cx - lx, 2*cy - ly)` of the tracked last
control through the current point, or the current point itself when no
last control is tracked; it is stored as the previous point's `handleOut`.
Concretely, for `M 0,0 C 0,50 50,50 50,0 S 100,-50 100,0` the interpreter
derives exactly `(50, -50)` as the first control of the `S` segment,
stored on the point `(50, 0)`. -/
theorem c3_smooth_reflection :
    (∀ (path_idx : ℕ) (is_relative : Bool) (a b c d : ℚ)
        (ps : List ControlPoint) (p : ControlPoint) (isc : Bool)
        (cx cy sx sy : ℚ) (lcp : Option (ℚ × ℚ)) (n : ℕ),
      (process_S path_idx is_relative [a, b, c, d]
          ⟨ps ++ [p], isc, cx, cy, sx, sy, lcp, n⟩).control_points =
        ps ++ [{ p with
            handleOut := some ⟨(match lcp with
                | some lc => 2 * cx - lc.1
                | none => cx),
              (match lcp with
                | some lc => 2 * cy - lc.2
                | none => cy)⟩
            , type := PtType.smooth }] ++
          [curvePoint path_idx n (c + (if is_relative then cx else 0))
            (d + (if is_relative then cy else 0))
            (a + (if is_relative then cx else 0))
            (b + (if is_relative then cy else 0))]) ∧
    (parse_path_data "M 0,0 C 0,50 50,50 50,0 S 100,-50 100,0" 0).map
        (fun r => r.1.map (fun p => (p.x, p.y, p.handleIn, p.handleOut))) =
      some [(0, 0, none, some ⟨0, 50⟩),
        (50, 0, some ⟨50, 50⟩, some ⟨50, -50⟩),
        (100, 0, some ⟨100, -50⟩, none)] := by
  constructor
  · intro path_idx is_relative a b c d ps p isc cx cy sx sy lcp n
    cases lcp with
    | none => simp [process_S, reflectLast, updateLast_append_singleton]
    | some lc => simp [process_S, reflectLast, updateLast_append_singleton]
  · simp +decide [parse_path_data, tokenize, tokenizeAux, isCmdChar, scanNum,
      scanNumBody, scanMantissa, scanExp, scanExpDigits, takeDigits, digitsVal,
      groupTokens, processCommands, processCommand, process_M, process_L,
      process_H, process_V, process_A, process_C, process_S, process_Q, process_T,
      reflectLast, updateLast, cornerPoint, curvePoint, initState,
      Char.isDigit, Char.isLower, Char.toUpper] <;> norm_num

/-- C4: every `Q`/`q` group is converted to the cubic with controls
`CP1 = P0 + 2/3*(Q - P0)` and `CP2 = P1 + 2/3*(Q - P1)`, and the tracked
last control is updated to the quadratic control `Q` itself (for `T`
reflection), not to a derived cubic control.  For `M 0,0 Q 50,100 100,0`
the derived controls are `(100/3, 200/3)` and `(200/3, 200/3)`, equal to
`(33.333, 66.667)` and `(66.667, 66.667)` within tolerance `1e-3`. -/
theorem c4_quadratic_degree_raising :
    (∀ (path_idx : ℕ) (is_relative : Bool) (a b c d : ℚ)
        (ps : List ControlPoint) (p : ControlPoint) (isc : Bool)
        (cx cy sx sy : ℚ) (lcp : Option (ℚ × ℚ)) (n : ℕ),
      process_Q path_idx is_relative [a, b, c, d]
          ⟨ps ++ [p], isc, cx, cy, sx, sy, lcp, n⟩ =
        ⟨ps ++ [{ p with
            handleOut := some
              ⟨cx + 2 / 3 * ((a + (if is_relative then cx else 0)) - cx),
               cy + 2 / 3 * ((b + (if is_relative then cy else 0)) - cy)⟩
            , type := PtType.smooth }] ++
          [curvePoint path_idx n (c + (if is_relative then cx else 0))
            (d + (if is_relative then cy else 0))
            ((c + (if is_relative then cx else 0)) +
              2 / 3 * ((a + (if is_relative then cx else 0)) -
                (c + (if is_relative then cx else 0))))
            ((d + (if is_relative then cy else 0)) +
              2 / 3 * ((b + (if is_relative then cy else 0)) -
                (d + (if is_relative then cy else 0))))],
          isc, c + (if is_relative then cx else 0),
          d + (if is_relative then cy else 0), sx, sy,
          some (a + (if is_relative then cx else 0),
            b + (if is_relative then cy else 0)), n + 1⟩) ∧
    (parse_path_data "M 0,0 Q 50,100 100,0" 0).map
        (fun r => r.1.map (fun p => (p.x, p.y, p.handleIn, p.handleOut))) =
      some [(0, 0, none, some ⟨100 / 3, 200 / 3⟩),
        (100, 0, some ⟨200 / 3, 200 / 3⟩, none)] ∧
    |100 / 3 - 33333 / 1000| ≤ (1 / 1000 : ℚ) ∧
    |200 / 3 - 66667 / 1000| ≤ (1 / 1000 : ℚ) := by
  refine ⟨?_, ?_, by norm_num [abs_le], by norm_num [abs_le]⟩
  · intro path_idx is_relative a b c d ps p isc cx cy sx sy lcp n
    simp [process_Q, updateLast_append_singleton]
  · simp +decide [parse_path_data, tokenize, tokenizeAux, isCmdChar, scanNum,
      scanNumBody, scanMantissa, scanExp, scanExpDigits, takeDigits, digitsVal,
      groupTokens, processCommands, processCommand, process_M, process_L,
      process_H, process_V, process_A, process_C, process_S, process_Q, process_T,
      reflectLast, updateLast, cornerPoint, curvePoint, initState,
      Char.isDigit, Char.isLower, Char.toUpper] <;> norm_num

/-- C5: every PathRecord returned by `parse_svg_to_paths` has at least two
control points — an element whose interpreted point list is shorter is
dropped before the result is returned. -/
theorem c5_point_count_floor (svg : String) (w h : ℤ) (l : List PathRecord)
    (hl : parse_svg_to_paths svg w h = some l) :
    ∀ rec ∈ l, 2 ≤ rec.controlPoints.length := by
  rw [parse_svg_to_paths] at hl
  exact buildPaths_min_points _ 0 l hl

/-- Witness for C5 at the end-to-end scenario document. -/
theorem c5_point_count_floor_witness :
    2 ≤ (⟨"path_0", "#ff0000", "",
      [⟨"cp_0_0", 10, 10, none, none, PtType.corner⟩,
       ⟨"cp_0_1", 50, 10, none, none, PtType.corner⟩,
       ⟨"cp_0_2", 50, 50, none, none, PtType.corner⟩],
      true⟩ : PathRecord).controlPoints.length :=
  c5_point_count_floor
    "<svg><path d=\"M10,10 L50,10 L50,50 Z\" fill=\"#ff0000\"/></svg>" 100 100
    [⟨"path_0", "#ff0000", "",
      [⟨"cp_0_0", 10, 10, none, none, PtType.corner⟩,
       ⟨"cp_0_1", 50, 10, none, none, PtType.corner⟩,
       ⟨"cp_0_2", 50, 50, none, none, PtType.corner⟩], true⟩]
    (by simp +decide [parse_svg_to_paths, buildPaths, attrOrEmpty, searchAttr,
      matchAttrValue, listStartsWith, isQuoteChar, findPathElems, findPathElemsAux,
      startsWithPathTag, splitAtGt, parse_path_data, tokenize, tokenizeAux,
      isCmdChar, scanNum, scanNumBody, scanMantissa, scanExp, scanExpDigits,
      takeDigits, digitsVal, groupTokens, processCommands, processCommand,
      process_M, process_L, process_H, process_V, process_A, process_C, process_S,
      process_Q, process_T, reflectLast, updateLast, cornerPoint, curvePoint,
      initState, Char.isDigit, Char.isLower, Char.toUpper, Char.toLower] <;> norm_num)
    _ (by simp)

/-- C6: relative and absolute command forms are equivalent — relative
offsets are added to the current point as each individual coordinate pair
is processed (`process_L` on relative arguments equals `process_L` on the
running-sum absolutization of those arguments), and the two inputs
`M 10,10 L 20,10 L 20,20` and `M 10,10 l 10,0 l 0,10` produce the same
anchor coordinates `[(10,10), (20,10), (20,20)]`. -/
theorem c6_relative_absolute_equivalence :
    (∀ (path_idx : ℕ) (args : List ℚ) (st : PState),
      process_L path_idx true args st =
        process_L path_idx false (absolutize st.cx st.cy args) st) ∧
    (parse_path_data "M 10,10 L 20,10 L 20,20" 0).map anchors =
      some [(10, 10), (20, 10), (20, 20)] ∧
    (parse_path_data "M 10,10 l 10,0 l 0,10" 0).map anchors =
      some [(10, 10), (20, 10), (20, 20)] := by
  refine ⟨process_L_rel_abs, ?_, ?_⟩ <;>
    simp +decide [parse_path_data, tokenize, tokenizeAux, isCmdChar, scanNum,
      scanNumBody, scanMantissa, scanExp, scanExpDigits, takeDigits, digitsVal,
      groupTokens, processCommands, processCommand, process_M, process_L,
      process_H, process_V, process_A, process_C, process_S, process_Q, process_T,
      reflectLast, updateLast, cornerPoint, curvePoint, initState, anchors,
      Char.isDigit, Char.isLower, Char.toUpper] <;> norm_num

/-- C7 counterexample: the claim says a point is `smooth` iff both handles
are populated, in particular no smooth point has a missing handle.  The
code violates this: for `M 0,0 C 0,50 50,50 50,0` the endpoint is appended
with `type = "smooth"` and `handleOut = None`. -/
theorem c7_smooth_without_handle :
    ¬ (∀ p ∈ ((parse_path_data "M 0,0 C 0,50 50,50 50,0" 0).getD ([], false)).1,
        (p.type = PtType.smooth ↔ (p.handleIn.isSome ∧ p.handleOut.isSome))) := by
  decide

/-- C7 (amended): the implication holds in one direction only — every
point with both handles populated is marked `smooth`, but a point marked
`smooth` may have a missing handle (the endpoint of a trailing curve
command has no `handleOut`; the point before an `S`/`Q`/`T` command is
promoted to `smooth` even with no `handleIn`). -/
theorem c7_both_handles_imply_smooth (d : String) (idx : ℕ)
    (r : List ControlPoint × Bool) (h : parse_path_data d idx = some r)
    (p : ControlPoint) (hp : p ∈ r.1)
    (h1 : p.handleIn.isSome = true) (h2 : p.handleOut.isSome = true) :
    p.type = PtType.smooth := by
  refine parse_path_data_pred idx bothHandlesSmooth ?_ ?_ ?_ ?_ d r h p hp h1 h2
  · intro n x y hi _
    simp [cornerPoint] at hi
  · intro n x y u v _ _
    rfl
  · intro hx hy q _ hi _
    have hi2 : q.handleIn.isSome = true := hi
    show (if q.handleIn.isSome then PtType.smooth else q.type) = PtType.smooth
    rw [hi2]
    rfl
  · intro hx hy q _ _ _
    rfl

/-- Witness for C7 at the `S`-segment document: the middle point of
`M 0,0 C 0,50 50,50 50,0 S 100,-50 100,0` has both handles and is smooth. -/
theorem c7_both_handles_imply_smooth_witness :
    (⟨"cp_0_1", 50, 0, some ⟨50, 50⟩, some ⟨50, -50⟩,
      PtType.smooth⟩ : ControlPoint).type = PtType.smooth :=
  c7_both_handles_imply_smooth "M 0,0 C 0,50 50,50 50,0 S 100,-50 100,0" 0
    ([⟨"cp_0_0", 0, 0, none, some ⟨0, 50⟩, PtType.corner⟩,
      ⟨"cp_0_1", 50, 0, some ⟨50, 50⟩, some ⟨50, -50⟩, PtType.smooth⟩,
      ⟨"cp_0_2", 100, 0, some ⟨100, -50⟩, none, PtType.smooth⟩], false)
    (by simp +decide [parse_path_data, tokenize, tokenizeAux, isCmdChar, scanNum,
      scanNumBody, scanMantissa, scanExp, scanExpDigits, takeDigits, digitsVal,
      groupTokens, processCommands, processCommand, process_M, process_L,
      process_H, process_V, process_A, process_C, process_S, process_Q, process_T,
      reflectLast, updateLast, cornerPoint, curvePoint, initState,
      Char.isDigit, Char.isLower, Char.toUpper] <;> norm_num)
    _ (by simp) rfl rfl

/-- C8 counterexample: the claim says a malformed numeric token (here
`..`, which `float` rejects) is treated as end-of-input, parsing returning
exactly the points built so far.  The code instead skips unmatched
characters and keeps going: `M 0,0 L 10,10 .. L 20,20` yields three
points, not the two built before the malformed token. -/
theorem c8_malformed_not_end_of_input :
    (parse_path_data "M 0,0 L 10,10 .. L 20,20" 0).map (fun r => r.1.length) =
      some 3 ∧
    (parse_path_data "M 0,0 L 10,10" 0).map (fun r => r.1.length) = some 2 ∧
    parse_path_data "M 0,0 L 10,10 .. L 20,20" 0 ≠
      parse_path_data "M 0,0 L 10,10" 0 := by
  refine ⟨by decide, by decide, fun h => ?_⟩
  have h3 : (parse_path_data "M 0,0 L 10,10 .. L 20,20" 0).map
      (fun r => r.1.length) = some 3 := by decide
  rw [h] at h3
  have h2 : (parse_path_data "M 0,0 L 10,10" 0).map (fun r => r.1.length) =
      some 2 := by decide
  rw [h2] at h3
  exact absurd h3 (by decide)

/-- C8 (amended): the tokenizer only ever extracts substrings that form
valid numerals (`float` never fails on them); characters that fit neither
a command letter nor a numeral are skipped one at a time and interpretation
continues with the remaining tokens, so `M 0,0 L 10,10 .. L 20,20` parses
exactly like `M 0,0 L 10,10 L 20,20`, producing three points — parsing
neither raises there nor stops early. -/
theorem c8_malformed_token_skipped :
    (∀ (c : Char) (cs : List Char), isCmdChar c = false →
      scanNum (c :: cs) = none → tokenize (c :: cs) = tokenize cs) ∧
    parse_path_data "M 0,0 L 10,10 .. L 20,20" 0 =
      parse_path_data "M 0,0 L 10,10 L 20,20" 0 ∧
    (parse_path_data "M 0,0 L 10,10 .. L 20,20" 0).map (fun r => r.1.length) =
      some 3 := by
  refine ⟨?_, ?_, by decide⟩
  · intro c cs h1 h2
    rw [tokenize, tokenize]
    rw [show (c :: cs).length = cs.length + 1 from rfl]
    rw [tokenizeAux]
    rw [if_neg (by simp [h1])]
    rw [h2]
  · simp +decide [parse_path_data, tokenize, tokenizeAux, isCmdChar, scanNum,
      scanNumBody, scanMantissa, scanExp, scanExpDigits, takeDigits, digitsVal,
      groupTokens, processCommands, processCommand, process_M, process_L,
      process_H, process_V, process_A, process_C, process_S, process_Q, process_T,
      reflectLast, updateLast, cornerPoint, curvePoint, initState,
      Char.isDigit, Char.isLower, Char.toUpper] <;> norm_num

/-- Witness for C8 at the first `.` of the malformed token `..`: it is
skipped and tokenization continues with the rest. -/
theorem c8_malformed_token_skipped_witness :
    tokenize ('.' :: ". L 20,20".data) = tokenize ". L 20,20".data :=
  c8_malformed_token_skipped.1 '.' ". L 20,20".data (by decide) (by decide)

/-- C9: the output of `parse_svg_to_paths` is independent of the `width`
and `height` arguments — the source never reads them, so any two dimension
pairs give identical results. -/
theorem c9_dimensions_ignored (svg : String) (w1 h1 w2 h2 : ℤ) :
    parse_svg_to_paths svg w1 h1 = parse_svg_to_paths svg w2 h2 := rfl

/-- C10: in every successful parse the final point's `handleOut` is `None`
(`handleOut` is only ever written to a point when a later point is
appended after it), and the `Z`/`z` branch never touches the point list —
no wrap-around `handleOut` on the last point or `handleIn` on the first. -/
theorem c10_last_handle_out_none :
    (∀ (d : String) (idx : ℕ) (r : List ControlPoint × Bool),
      parse_path_data d idx = some r →
      ∀ p, r.1.getLast? = some p → p.handleOut = none) ∧
    (∀ (path_idx : ℕ) (cmd : Char) (args : List ℚ) (st st' : PState),
      cmd = 'Z' ∨ cmd = 'z' →
      processCommand path_idx cmd args st = some st' →
      st'.control_points = st.control_points) := by
  constructor
  · intro d idx r h p hp
    exact parse_path_data_last d idx r h p hp
  · intro path_idx cmd args st st' hz h
    rcases hz with rfl | rfl
    · obtain rfl := Option.some.inj h
      rfl
    · obtain rfl := Option.some.inj h
      rfl

/-- Witness for C10 at a closed path ending in a curve: the last point of
`M 0,0 C 0,50 50,50 50,0 Z` has no outgoing handle. -/
theorem c10_last_handle_out_none_witness :
    (⟨"cp_0_1", 50, 0, some ⟨50, 50⟩, none,
      PtType.smooth⟩ : ControlPoint).handleOut = none :=
  c10_last_handle_out_none.1 "M 0,0 C 0,50 50,50 50,0 Z" 0
    ([⟨"cp_0_0", 0, 0, none, some ⟨0, 50⟩, PtType.corner⟩,
      ⟨"cp_0_1", 50, 0, some ⟨50, 50⟩, none, PtType.smooth⟩], true)
    (by simp +decide [parse_path_data, tokenize, tokenizeAux, isCmdChar, scanNum,
      scanNumBody, scanMantissa, scanExp, scanExpDigits, takeDigits, digitsVal,
      groupTokens, processCommands, processCommand, process_M, process_L,
      process_H, process_V, process_A, process_C, process_S, process_Q, process_T,
      reflectLast, updateLast, cornerPoint, curvePoint, initState,
      Char.isDigit, Char.isLower, Char.toUpper] <;> norm_num)
    _ rfl
